import Mathlib

/-!
Verification of the bridge-engine core (auction, play, scoring, deal
generation) of the bridge-convention-app repository.  Rust code from
src-tauri/crates/bridge-engine is shallowly embedded: machine integers
become Nat/Int, Vec becomes List, HashMap keyed by the four seats becomes a
total function, fallible functions return Except, and the random generator
is threaded as explicit state.
-/

set_option maxHeartbeats 1000000

/-- types.rs: the four card suits. -/
inductive Suit where
  | clubs | diamonds | hearts | spades
deriving DecidableEq

/-- types.rs: the thirteen ranks, Two..Ace. -/
inductive Rank where
  | two | three | four | five | six | seven | eight | nine | ten
  | jack | queen | king | ace
deriving DecidableEq

/-- types.rs: the four seats. -/
inductive Seat where
  | north | east | south | west
deriving DecidableEq

/-- types.rs: vulnerability, one of four values. -/
inductive Vulnerability where
  | vNone | northSouth | eastWest | both
deriving DecidableEq

/-- types.rs: bid strains, C, D, H, S, NT. -/
inductive BidSuit where
  | clubs | diamonds | hearts | spades | noTrump
deriving DecidableEq

/-- types.rs: a card is a suit plus a rank. -/
structure Card where
  suit : Suit
  rank : Rank
deriving DecidableEq

/-- types.rs: a hand is a vector of cards. -/
structure Hand where
  cards : List Card
deriving DecidableEq

/-- types.rs: a call in the auction. -/
inductive Call where
  | bid (level : Nat) (strain : BidSuit)
  | pass
  | double
  | redouble
deriving DecidableEq

/-- types.rs: one auction entry, a seat plus its call. -/
structure AuctionEntry where
  seat : Seat
  call : Call
deriving DecidableEq

/-- types.rs: an auction, its entry log plus the completion flag. -/
structure Auction where
  entries : List AuctionEntry
  is_complete : Bool
deriving DecidableEq

/-- types.rs: a contract. -/
structure Contract where
  level : Nat
  strain : BidSuit
  doubled : Bool
  redoubled : Bool
  declarer : Seat
deriving DecidableEq

/-- types.rs: a played card within a trick. -/
structure PlayedCard where
  card : Card
  seat : Seat
deriving DecidableEq

/-- types.rs: a trick: plays so far, designated trump suit, resolved winner. -/
structure Trick where
  plays : List PlayedCard
  trump_suit : Option Suit
  winner : Option Seat
deriving DecidableEq

/-- error.rs: the engine error enumeration. -/
inductive EngineError where
  | InvalidHandSize (n : Nat)
  | AuctionComplete
  | IllegalCall (s : String)
  | IncompleteTrick
  | NoBidsInAuction
  | MaxAttemptsExceeded (n : Nat)
deriving DecidableEq

/-- Helper: Boolean test used to mirror matches!(call, Call::Pass). -/
def Call.isPass : Call → Bool
  | .pass => true
  | _ => false

/-- Helper: Boolean test used to mirror matches!(call, Call::Bid \x7b .. \x7d). -/
def Call.isBid : Call → Bool
  | .bid _ _ => true
  | _ => false

/-- constants.rs: SEATS in order N, E, S, W. -/
def SEATS : List Seat := [Seat.north, Seat.east, Seat.south, Seat.west]

/-- constants.rs: seat_index. -/
def seat_index : Seat → Nat
  | .north => 0
  | .east => 1
  | .south => 2
  | .west => 3

/-- constants.rs: partner_seat, two steps around the table. -/
def partner_seat (seat : Seat) : Seat :=
  SEATS.getD ((seat_index seat + 2) % 4) Seat.north

/-- constants.rs: rank_index, Two = 0 .. Ace = 12. -/
def rank_index : Rank → Nat
  | .two => 0
  | .three => 1
  | .four => 2
  | .five => 3
  | .six => 4
  | .seven => 5
  | .eight => 6
  | .nine => 7
  | .ten => 8
  | .jack => 9
  | .queen => 10
  | .king => 11
  | .ace => 12

/-- constants.rs: hcp_value, the 4-3-2-1 count. -/
def hcp_value : Rank → Nat
  | .jack => 1
  | .queen => 2
  | .king => 3
  | .ace => 4
  | _ => 0

/-- constants.rs: SUITS in order C, D, H, S. -/
def SUITS : List Suit := [Suit.clubs, Suit.diamonds, Suit.hearts, Suit.spades]

/-- constants.rs: RANKS ascending Two..Ace. -/
def RANKS : List Rank :=
  [Rank.two, Rank.three, Rank.four, Rank.five, Rank.six, Rank.seven,
   Rank.eight, Rank.nine, Rank.ten, Rank.jack, Rank.queen, Rank.king, Rank.ace]

/-- constants.rs: create_deck, each suit crossed with each rank. -/
def create_deck : List Card :=
  SUITS.flatMap (fun suit => RANKS.map (fun rank => ⟨suit, rank⟩))

/-- auction.rs: strain_rank, C=1 .. NT=5. -/
def strain_rank : BidSuit → Nat
  | .clubs => 1
  | .diamonds => 2
  | .hearts => 3
  | .spades => 4
  | .noTrump => 5

/-- auction.rs: compare_bids, level first then strain rank. -/
def compare_bids (a_level : Nat) (a_strain : BidSuit) (b_level : Nat) (b_strain : BidSuit) :
    Ordering :=
  (compare a_level b_level).then (compare (strain_rank a_strain) (strain_rank b_strain))

/-- auction.rs: same_side. -/
def same_side (a b : Seat) : Bool :=
  a == b || partner_seat a == b

/-- auction.rs: last_non_pass, the most recent non-pass entry. -/
def last_non_pass (auction : Auction) : Option AuctionEntry :=
  auction.entries.reverse.find? (fun e => !e.call.isPass)

/-- auction.rs: last_bid, the most recent contract-bid entry. -/
def last_bid (auction : Auction) : Option AuctionEntry :=
  auction.entries.reverse.find? (fun e => e.call.isBid)

/-- auction.rs: is_legal_call. -/
def is_legal_call (auction : Auction) (call : Call) (seat : Seat) : Bool :=
  if auction.is_complete then false
  else
    match call with
    | .pass => true
    | .bid level strain =>
      match last_bid auction with
      | none => true
      | some entry =>
        match entry.call with
        | .bid prev_level prev_strain =>
          compare_bids level strain prev_level prev_strain == Ordering.gt
        | _ => false
    | .double =>
      match last_non_pass auction with
      | none => false
      | some entry => entry.call.isBid && !same_side entry.seat seat
    | .redouble =>
      match last_non_pass auction with
      | none => false
      | some entry => (entry.call == Call.double) && !same_side entry.seat seat

/-- Default entry used only to mirror Rust panicking indexing (never reached
in bounds-checked positions). -/
def default_entry : AuctionEntry := ⟨Seat.north, Call.pass⟩

/-- auction.rs: is_auction_complete. -/
def is_auction_complete (auction : Auction) : Bool :=
  let entries := auction.entries
  let len := entries.length
  if len < 4 then false
  else
    let last_three_passes :=
      (entries.getD (len - 1) default_entry).call.isPass &&
      (entries.getD (len - 2) default_entry).call.isPass &&
      (entries.getD (len - 3) default_entry).call.isPass
    if !last_three_passes then false
    else if len == 4 && (entries.getD (len - 4) default_entry).call.isPass then true
    else (entries.take (len - 3)).any (fun e => !e.call.isPass)

/-- Debug rendering of a strain, mirroring Rust derive(Debug). -/
def strain_debug : BidSuit → String
  | .clubs => "Clubs"
  | .diamonds => "Diamonds"
  | .hearts => "Hearts"
  | .spades => "Spades"
  | .noTrump => "NoTrump"

/-- Debug rendering of a call, mirroring format!("\x7b:?\x7d", call). -/
def call_debug : Call → String
  | .bid level strain =>
    "Bid \x7b level: " ++ toString level ++ ", strain: " ++ strain_debug strain ++ " \x7d"
  | .pass => "Pass"
  | .double => "Double"
  | .redouble => "Redouble"

/-- auction.rs: add_call, validated immutable append. -/
def add_call (auction : Auction) (entry : AuctionEntry) : Except EngineError Auction :=
  if auction.is_complete then
    .error .AuctionComplete
  else if !is_legal_call auction entry.call entry.seat then
    .error (.IllegalCall (call_debug entry.call))
  else
    let new_entries := auction.entries ++ [entry]
    let result : Auction := ⟨new_entries, false⟩
    .ok { result with is_complete := is_auction_complete result }

/-- auction.rs: get_declarer, first player on the winning side naming the
final strain. -/
def get_declarer (auction : Auction) : Except EngineError Seat :=
  match last_bid auction with
  | none => .error .NoBidsInAuction
  | some last =>
    match last.call with
    | .bid _ final_strain =>
      let declaring_side := last.seat
      match auction.entries.find? (fun e =>
          match e.call with
          | .bid _ strain => strain == final_strain && same_side e.seat declaring_side
          | _ => false) with
      | some e => .ok e.seat
      | none => .ok declaring_side
    | _ => .error .NoBidsInAuction

/-- Default play mirroring Rust indexing plays[0] (reached only after the
length-4 check). -/
def default_play : PlayedCard := ⟨⟨Suit.clubs, Rank.two⟩, Seat.north⟩

/-- One comparison step of max_by_key: the later element wins ties, as in
Rust. -/
def rank_step (best q : PlayedCard) : PlayedCard :=
  if rank_index best.card.rank ≤ rank_index q.card.rank then q else best

/-- play.rs: Iterator::max_by_key over rank_index — on ties the LAST maximal
element is kept, as in Rust. -/
def max_by_rank : List PlayedCard → Option PlayedCard
  | [] => none
  | p :: ps => some (ps.foldl rank_step p)

/-- play.rs: get_trick_winner. -/
def get_trick_winner (trick : Trick) : Except EngineError Seat :=
  if trick.plays.length ≠ 4 then .error .IncompleteTrick
  else
    let lead_suit := (trick.plays.headD default_play).card.suit
    let follow_result :=
      let follow_plays := trick.plays.filter (fun p => p.card.suit == lead_suit)
      match max_by_rank follow_plays with
      | some p => Except.ok p.seat
      | none => Except.error EngineError.IncompleteTrick
    match trick.trump_suit with
    | some trump =>
      let trump_plays := trick.plays.filter (fun p => p.card.suit == trump)
      if !trump_plays.isEmpty then
        match max_by_rank trump_plays with
        | some p => Except.ok p.seat
        | none => Except.error EngineError.IncompleteTrick
      else follow_result
    | none => follow_result

/-- scoring.rs: is_vulnerable. -/
def is_vulnerable (declarer : Seat) (vulnerability : Vulnerability) : Bool :=
  match vulnerability with
  | .vNone => false
  | .both => true
  | .northSouth => declarer == Seat.north || declarer == Seat.south
  | .eastWest => declarer == Seat.east || declarer == Seat.west

/-- scoring.rs: calculate_trick_points. -/
def calculate_trick_points (contract : Contract) : Int :=
  let base : Int :=
    match contract.strain with
    | .clubs | .diamonds => 20 * (contract.level : Int)
    | .hearts | .spades => 30 * (contract.level : Int)
    | .noTrump => 40 + 30 * ((contract.level : Int) - 1)
  if contract.redoubled then base * 4
  else if contract.doubled then base * 2
  else base

/-- scoring.rs: trick_value (overtrick value per strain). -/
def trick_value : BidSuit → Int
  | .clubs | .diamonds => 20
  | .hearts | .spades => 30
  | .noTrump => 30

/-- scoring.rs: calculate_making_score. -/
def calculate_making_score (contract : Contract) (overtricks : Int) (vulnerable : Bool) : Int :=
  let trick_points := calculate_trick_points contract
  let bonus0 : Int := if trick_points ≥ 100 then (if vulnerable then 500 else 300) else 50
  let bonus1 : Int :=
    if contract.level = 6 then bonus0 + (if vulnerable then 750 else 500)
    else if contract.level = 7 then bonus0 + (if vulnerable then 1500 else 1000)
    else bonus0
  let bonus : Int :=
    if contract.redoubled then bonus1 + 100
    else if contract.doubled then bonus1 + 50
    else bonus1
  let overtrick_points : Int :=
    if contract.redoubled then overtricks * (if vulnerable then 400 else 200)
    else if contract.doubled then overtricks * (if vulnerable then 200 else 100)
    else overtricks * trick_value contract.strain
  trick_points + bonus + overtrick_points

/-- scoring.rs: calculate_doubled_penalty — for i in 1..=undertricks,
accumulating the stepped schedule. -/
def calculate_doubled_penalty (undertricks : Int) (vulnerable : Bool) : Int :=
  (List.range undertricks.toNat).foldl (fun total k =>
    let i := k + 1
    total + (if vulnerable then (if i = 1 then (200 : Int) else 300)
             else (if i = 1 then 100 else if i ≤ 3 then 200 else 300))) 0

/-- scoring.rs: calculate_penalty. -/
def calculate_penalty (contract : Contract) (undertricks : Int) (vulnerable : Bool) : Int :=
  if contract.redoubled then calculate_doubled_penalty undertricks vulnerable * 2
  else if contract.doubled then calculate_doubled_penalty undertricks vulnerable
  else undertricks * (if vulnerable then 100 else 50)

/-- scoring.rs: calculate_score, positive = made, negative = down. -/
def calculate_score (contract : Contract) (tricks_won : Nat) (vulnerability : Vulnerability) :
    Int :=
  let required : Int := (contract.level : Int) + 6
  let tricks : Int := (tricks_won : Int)
  let vulnerable := is_vulnerable contract.declarer vulnerability
  if tricks ≥ required then calculate_making_score contract (tricks - required) vulnerable
  else -calculate_penalty contract (required - tricks) vulnerable

/-- hand_evaluator.rs: suit_order_index, [Spades, Hearts, Diamonds, Clubs]. -/
def suit_order_index : Suit → Fin 4
  | .spades => 0
  | .hearts => 1
  | .diamonds => 2
  | .clubs => 3

/-- hand_evaluator.rs: SuitLength [u8; 4] as a function from position. -/
def SuitLength := Fin 4 → Nat

/-- hand_evaluator.rs: calculate_hcp, sum of per-card 4-3-2-1 values. -/
def calculate_hcp (hand : Hand) : Nat :=
  (hand.cards.map (fun c => hcp_value c.rank)).sum

/-- hand_evaluator.rs: get_suit_length, counts per SUIT_ORDER position. -/
def get_suit_length (hand : Hand) : SuitLength :=
  hand.cards.foldl
    (fun counts card =>
      Function.update counts (suit_order_index card.suit)
        (counts (suit_order_index card.suit) + 1))
    (fun _ => 0)

/-- hand_evaluator.rs: is_balanced via the five-swap sorting network. -/
def is_balanced (shape : SuitLength) : Bool :=
  let a := shape 0
  let b := shape 1
  let c := shape 2
  let d := shape 3
  let ab := if a < b then (b, a) else (a, b)
  let cd := if c < d then (d, c) else (c, d)
  let ac := if ab.1 < cd.1 then (cd.1, ab.1) else (ab.1, cd.1)
  let bd := if ab.2 < cd.2 then (cd.2, ab.2) else (ab.2, cd.2)
  let bc := if bd.1 < ac.2 then (ac.2, bd.1) else (bd.1, ac.2)
  (ac.1 == 4 && bc.1 == 3 && bc.2 == 3 && bd.2 == 3) ||
  (ac.1 == 4 && bc.1 == 4 && bc.2 == 3 && bd.2 == 2) ||
  (ac.1 == 5 && bc.1 == 3 && bc.2 == 3 && bd.2 == 2)

/-- hand_evaluator.rs: calculate_hcp_and_shape, a single pass. -/
def calculate_hcp_and_shape (hand : Hand) : Nat × SuitLength :=
  hand.cards.foldl
    (fun st card =>
      (st.1 + hcp_value card.rank,
       Function.update st.2 (suit_order_index card.suit)
         (st.2 (suit_order_index card.suit) + 1)))
    (0, fun _ => 0)

/-- types.rs: per-seat generation constraint; the HashMap<Suit, u8> fields
become partial functions from Suit. -/
structure SeatConstraint where
  seat : Seat
  min_hcp : Option Nat
  max_hcp : Option Nat
  balanced : Option Bool
  min_length : Option (Suit → Option Nat)
  max_length : Option (Suit → Option Nat)
  min_length_any : Option (Suit → Option Nat)

/-- types.rs: deal-generation constraints. -/
structure DealConstraints where
  seats : List SeatConstraint
  vulnerability : Option Vulnerability
  dealer : Option Seat
  max_attempts : Option Nat
  seed : Option Nat

/-- types.rs: a deal; the HashMap with exactly the four seat keys becomes a
total function from Seat. -/
structure Deal where
  hands : Seat → Hand
  dealer : Seat
  vulnerability : Vulnerability

/-- types.rs: the deal generator result. -/
structure DealGeneratorResult where
  deal : Deal
  iterations : Nat
  relaxation_steps : Nat

/-- constants.rs: SUIT_ORDER = [Spades, Hearts, Diamonds, Clubs], enumerated
with its positions as in Rust iter().enumerate(). -/
def SUIT_ORDER_ENUM : List (Fin 4 × Suit) :=
  [(0, Suit.spades), (1, Suit.hearts), (2, Suit.diamonds), (3, Suit.clubs)]

/-- deal_generator.rs: check_shape_constraint. -/
def check_shape_constraint (shape : SuitLength) (constraint : SeatConstraint) : Bool :=
  (match constraint.balanced with
   | some b => b == is_balanced shape
   | none => true) &&
  (match constraint.min_length with
   | some ml => SUIT_ORDER_ENUM.all (fun p =>
      match ml p.2 with
      | some mn => decide (mn ≤ shape p.1)
      | none => true)
   | none => true) &&
  (match constraint.max_length with
   | some ml => SUIT_ORDER_ENUM.all (fun p =>
      match ml p.2 with
      | some mx => decide (shape p.1 ≤ mx)
      | none => true)
   | none => true) &&
  (match constraint.min_length_any with
   | some ml => SUIT_ORDER_ENUM.any (fun p =>
      match ml p.2 with
      | some mn => decide (mn ≤ shape p.1)
      | none => false)
   | none => true)

/-- deal_generator.rs: check_seat_constraint. -/
def check_seat_constraint (hand : Hand) (constraint : SeatConstraint) : Bool :=
  let needs_hcp := constraint.min_hcp.isSome || constraint.max_hcp.isSome
  let needs_shape := constraint.balanced.isSome || constraint.min_length.isSome ||
    constraint.max_length.isSome || constraint.min_length_any.isSome
  if needs_hcp && needs_shape then
    let hs := calculate_hcp_and_shape hand
    (match constraint.min_hcp with
     | some mn => decide (mn ≤ hs.1)
     | none => true) &&
    (match constraint.max_hcp with
     | some mx => decide (hs.1 ≤ mx)
     | none => true) &&
    check_shape_constraint hs.2 constraint
  else if needs_hcp then
    let hcp := calculate_hcp hand
    (match constraint.min_hcp with
     | some mn => decide (mn ≤ hcp)
     | none => true) &&
    (match constraint.max_hcp with
     | some mx => decide (hcp ≤ mx)
     | none => true)
  else if needs_shape then
    check_shape_constraint (get_suit_length hand) constraint
  else true

/-- deal_generator.rs: check_constraints (every generated deal's map holds
all four seats, so the lookup always succeeds in the embedding). -/
def check_constraints (deal : Deal) (constraints : DealConstraints) : Bool :=
  constraints.seats.all (fun sc => check_seat_constraint (deal.hands sc.seat) sc)

/-- The random generator as explicit pure state: a stream giving, for each
draw counter and inclusive bound, a raw value reduced modulo bound + 1,
mirroring rand::Rng::gen_range(0..=i). -/
structure RngM where
  stream : Nat → Nat → Nat
  counter : Nat

/-- One gen_range(0..=hi) draw, advancing the counter. -/
def RngM.gen_range (r : RngM) (hi : Nat) : Nat × RngM :=
  (r.stream r.counter hi % (hi + 1), { r with counter := r.counter + 1 })

/-- Modelled from the spec: ChaCha8Rng::seed_from_u64 lives in the external
rand_chacha crate and is not part of this repository; the spec only requires
a reproducible stream that is a fixed deterministic function of the seed,
which is what this concrete mixing function provides. -/
def chacha8_from_seed (seed : Nat) : RngM :=
  { stream := fun k hi => (seed * 2654435761 + k * 2246822519 + hi * 40503) % 4294967296
    counter := 0 }

/-- Swap two list positions, as Vec::swap (in-bounds in every reached call). -/
def list_swap (l : List Card) (i j : Nat) : List Card :=
  match l.get? i, l.get? j with
  | some a, some b => (l.set i b).set j a
  | _, _ => l

/-- deal_generator.rs: fisher_yates_shuffle — for i in (1..len).rev(),
swap(i, gen_range(0..=i)). -/
def fisher_yates_shuffle (cards : List Card) (rng : RngM) : List Card × RngM :=
  let len := cards.length
  (((List.range len).drop 1).reverse).foldl
    (fun st i =>
      let draw := st.2.gen_range i
      (list_swap st.1 i draw.1, draw.2))
    (cards, rng)

/-- deal_generator.rs: deal_from_shuffled, 13-card slices in order N,E,S,W. -/
def deal_from_shuffled (cards : List Card) (dealer : Seat)
    (vulnerability : Vulnerability) : Deal :=
  { hands := fun s =>
      match s with
      | .north => ⟨cards.take 13⟩
      | .east => ⟨(cards.drop 13).take 13⟩
      | .south => ⟨(cards.drop 26).take 13⟩
      | .west => ⟨(cards.drop 39).take 13⟩
    dealer := dealer
    vulnerability := vulnerability }

/-- deal_generator.rs: DEFAULT_MAX_ATTEMPTS. -/
def DEFAULT_MAX_ATTEMPTS : Nat := 10000

/-- The attempt loop of generate_deal: remaining attempts, current attempt
number, current rng state. -/
def generate_loop (constraints : DealConstraints) (dealer : Seat)
    (vulnerability : Vulnerability) (deck : List Card) (max_attempts : Nat) :
    Nat → Nat → RngM → Except EngineError DealGeneratorResult
  | 0, _, _ => .error (.MaxAttemptsExceeded max_attempts)
  | remaining + 1, attempt, rng =>
    let shuffled := fisher_yates_shuffle deck rng
    let deal := deal_from_shuffled shuffled.1 dealer vulnerability
    if check_constraints deal constraints then
      .ok ⟨deal, attempt, 0⟩
    else
      generate_loop constraints dealer vulnerability deck max_attempts
        remaining (attempt + 1) shuffled.2

/-- deal_generator.rs: generate_deal via rejection sampling.  The entropy
parameter stands for thread_rng() and is consulted only when no seed is
given. -/
def generate_deal (constraints : DealConstraints) (entropy : RngM) :
    Except EngineError DealGeneratorResult :=
  let dealer := constraints.dealer.getD Seat.north
  let vulnerability := constraints.vulnerability.getD Vulnerability.vNone
  let max_attempts := constraints.max_attempts.getD DEFAULT_MAX_ATTEMPTS
  let deck := create_deck
  let rng : RngM :=
    match constraints.seed with
    | some seed => chacha8_from_seed seed
    | none => entropy
  generate_loop constraints dealer vulnerability deck max_attempts
    max_attempts 1 rng

/-- auction.rs: the strain enumeration order used by get_legal_calls. -/
def BID_STRAINS : List BidSuit :=
  [BidSuit.clubs, BidSuit.diamonds, BidSuit.hearts, BidSuit.spades, BidSuit.noTrump]

/-- The 35 possible bids, levels ascending, strains in C,D,H,S,NT order. -/
def all_bids : List (Nat × BidSuit) :=
  (List.range 7).flatMap (fun k => BID_STRAINS.map (fun s => (k + 1, s)))

/-- Strict bid order induced by compare_bids. -/
def bid_lt (a b : Nat × BidSuit) : Prop :=
  compare_bids a.1 a.2 b.1 b.2 = Ordering.lt

instance (a b : Nat × BidSuit) : Decidable (bid_lt a b) :=
  inferInstanceAs (Decidable (compare_bids a.1 a.2 b.1 b.2 = Ordering.lt))

/-- Sample auctions used as concrete instances. -/
def auction_two_bids_two_passes : Auction :=
  ⟨[⟨Seat.north, Call.bid 1 BidSuit.clubs⟩, ⟨Seat.east, Call.bid 1 BidSuit.diamonds⟩,
    ⟨Seat.south, Call.pass⟩, ⟨Seat.west, Call.pass⟩], false⟩

def auction_passout : Auction :=
  ⟨[⟨Seat.north, Call.pass⟩, ⟨Seat.east, Call.pass⟩, ⟨Seat.south, Call.pass⟩,
    ⟨Seat.west, Call.pass⟩], true⟩

def auction_one_bid : Auction :=
  ⟨[⟨Seat.north, Call.bid 1 BidSuit.spades⟩], false⟩

def auction_raise : Auction :=
  ⟨[⟨Seat.north, Call.bid 1 BidSuit.spades⟩, ⟨Seat.east, Call.pass⟩,
    ⟨Seat.south, Call.bid 2 BidSuit.spades⟩, ⟨Seat.west, Call.pass⟩,
    ⟨Seat.north, Call.pass⟩, ⟨Seat.east, Call.pass⟩], false⟩

/-- C7: the claim's theorem.
The bid comparison (level primary ascending, strain rank C<D<H<S<NT as
tie-break) is a strict total order over all 35 (level, strain) pairs with
level in 1..7: irreflexive, transitive, any two distinct bids comparable,
and the enumeration 1C < 1D < 1H < 1S < 1NT < 2C < … < 7NT is an ascending
chain. -/
theorem compare_bids_strict_total_order :
    (∀ a ∈ all_bids, ¬bid_lt a a) ∧
    (∀ a ∈ all_bids, ∀ b ∈ all_bids, ∀ c ∈ all_bids,
      bid_lt a b → bid_lt b c → bid_lt a c) ∧
    (∀ a ∈ all_bids, ∀ b ∈ all_bids, a ≠ b → bid_lt a b ∨ bid_lt b a) ∧
    all_bids.Pairwise bid_lt := by
  refine ⟨by decide, ?_, by decide, by decide⟩
  decide

/-- Witness for C7: totality applied to 1♣ and 2♣. -/
theorem compare_bids_strict_total_order_witness :
    bid_lt (1, BidSuit.clubs) (2, BidSuit.clubs) ∨
    bid_lt (2, BidSuit.clubs) (1, BidSuit.clubs) :=
  compare_bids_strict_total_order.2.2.1 (1, BidSuit.clubs) (by decide)
    (2, BidSuit.clubs) (by decide) (by decide)

/-- Example constraints and entropy sources for the determinism claim. -/
def example_constraints : DealConstraints := ⟨[], none, none, some 2, some 42⟩

def entropy_a : RngM := ⟨fun _ _ => 0, 0⟩

def entropy_b : RngM := ⟨fun _ k => k + 7, 3⟩

/-- C9: the claim's theorem.
With a seed present, generate_deal is a function of the seed and the
constraints alone: the entropy source (thread_rng) is never consulted, so
two calls with identical seed and constraints return identical results —
the same per-seat card sequences, iteration count, and outcome. -/
theorem generate_deal_seed_deterministic (constraints : DealConstraints)
    (entropy1 entropy2 : RngM) (seed : Nat) (h : constraints.seed = some seed) :
    generate_deal constraints entropy1 = generate_deal constraints entropy2 := by
  unfold generate_deal
  rw [h]

/-- Witness for C9 at concrete inputs. -/
theorem generate_deal_seed_deterministic_witness :
    generate_deal example_constraints entropy_a = generate_deal example_constraints entropy_b :=
  generate_deal_seed_deterministic example_constraints entropy_a entropy_b 42 rfl

/-- Completion only reads the entry log, never the stored flag. -/
theorem is_auction_complete_entries_only (entries : List AuctionEntry) (b1 b2 : Bool) :
    is_auction_complete ⟨entries, b1⟩ = is_auction_complete ⟨entries, b2⟩ := rfl

/-- C6: the claim's theorem.
add_call fails with AuctionComplete when the completion flag is set; fails
with IllegalCall carrying a description of the offending call when the
legality rule rejects the entry; otherwise returns a new Auction whose
entries are the old entries with the entry appended and whose completion
flag is recomputed by is_auction_complete.  The embedding is a pure
function, so the input auction value is never mutated. -/
theorem add_call_spec (a : Auction) (e : AuctionEntry) :
    (a.is_complete = true → add_call a e = .error .AuctionComplete) ∧
    (a.is_complete = false → is_legal_call a e.call e.seat = false →
      add_call a e = .error (.IllegalCall (call_debug e.call))) ∧
    (a.is_complete = false → is_legal_call a e.call e.seat = true →
      ∃ a2, add_call a e = .ok a2 ∧ a2.entries = a.entries ++ [e] ∧
        a2.is_complete = is_auction_complete a2) := by
  refine ⟨fun h1 => ?_, fun h1 h2 => ?_, fun h1 h2 => ?_⟩
  · simp [add_call, h1]
  · simp [add_call, h1, h2]
  · refine ⟨⟨a.entries ++ [e], is_auction_complete ⟨a.entries ++ [e], false⟩⟩, ?_, rfl, ?_⟩
    · simp [add_call, h1, h2]
    · exact is_auction_complete_entries_only _ _ _

/-- Witness for C6: appending to a complete auction fails, and a legal
append to a fresh auction extends the log. -/
theorem add_call_spec_witness :
    add_call auction_passout ⟨Seat.north, Call.pass⟩ = .error .AuctionComplete ∧
    ∃ a2, add_call ⟨[], false⟩ ⟨Seat.north, Call.bid 1 BidSuit.spades⟩ = .ok a2 ∧
      a2.entries = [⟨Seat.north, Call.bid 1 BidSuit.spades⟩] ∧
      a2.is_complete = is_auction_complete a2 := by
  refine ⟨(add_call_spec auction_passout ⟨Seat.north, Call.pass⟩).1 rfl, ?_⟩
  have h := (add_call_spec ⟨[], false⟩ ⟨Seat.north, Call.bid 1 BidSuit.spades⟩).2.2 rfl
    (by decide)
  simpa using h

/-- Spec wording of the stepped doubled-undertrick schedule: the i-th
undertrick costs, not vulnerable, 100 for the first, 200 for the second and
third, 300 thereafter; vulnerable, 200 for the first, 300 thereafter. -/
def stepped_doubled_spec (vulnerable : Bool) (i : Nat) : Int :=
  if vulnerable then (if i = 1 then 200 else 300)
  else if i = 1 then 100
  else if i = 2 ∨ i = 3 then 200
  else 300

/-- Spec wording of the total penalty for n undertricks: undoubled a flat
50/100 per trick, doubled the stepped schedule summed, redoubled twice the
doubled total. -/
def penalty_total_spec (contract : Contract) (n : Nat) (vulnerable : Bool) : Int :=
  if contract.redoubled then
    2 * ((List.range n).map (fun k => stepped_doubled_spec vulnerable (k + 1))).sum
  else if contract.doubled then
    ((List.range n).map (fun k => stepped_doubled_spec vulnerable (k + 1))).sum
  else (n : Int) * (if vulnerable then 100 else 50)

theorem foldl_add_eq_sum (f : Nat → Int) (l : List Nat) (init : Int) :
    l.foldl (fun t k => t + f k) init = init + (l.map f).sum := by
  induction l generalizing init with
  | nil => simp
  | cons x xs ih =>
    simp only [List.foldl_cons, List.map_cons, List.sum_cons, ih]
    ring

theorem calculate_doubled_penalty_eq_spec (m : Nat) (vulnerable : Bool) :
    calculate_doubled_penalty (m : Int) vulnerable =
      ((List.range m).map (fun k => stepped_doubled_spec vulnerable (k + 1))).sum := by
  unfold calculate_doubled_penalty
  rw [Int.toNat_natCast, foldl_add_eq_sum]
  rw [List.map_congr_left (g := fun k => stepped_doubled_spec vulnerable (k + 1)) ?_]
  · simp
  · intro k _
    simp only [stepped_doubled_spec]
    split_ifs <;> omega

theorem calculate_penalty_eq_spec (contract : Contract) (m : Nat) (vulnerable : Bool) :
    calculate_penalty contract (m : Int) vulnerable =
      penalty_total_spec contract m vulnerable := by
  unfold calculate_penalty penalty_total_spec
  split_ifs with h1 h2
  · rw [calculate_doubled_penalty_eq_spec]
    ring
  · rw [calculate_doubled_penalty_eq_spec]
  all_goals rfl

/-- C3: the claim's theorem.
For every contract and tricks_won below level + 6, calculate_score is the
negative of the stepped penalty schedule total over the undertricks, and in
particular 3NT doubled down 3 not vulnerable scores −500. -/
theorem calculate_score_penalty_spec :
    (∀ (contract : Contract) (tricks_won : Nat) (v : Vulnerability),
      tricks_won < contract.level + 6 →
      calculate_score contract tricks_won v =
        -penalty_total_spec contract (contract.level + 6 - tricks_won)
          (is_vulnerable contract.declarer v)) ∧
    calculate_score ⟨3, BidSuit.noTrump, true, false, Seat.north⟩ 6 Vulnerability.vNone
      = -500 := by
  constructor
  · intro contract tricks_won v h
    unfold calculate_score
    rw [if_neg (by omega)]
    have hcast : ((contract.level : Int) + 6 - (tricks_won : Int)) =
        ((contract.level + 6 - tricks_won : Nat) : Int) := by omega
    rw [hcast, calculate_penalty_eq_spec]
  · decide

/-- Witness for C3 at a concrete contract: 4♠ down 2, vulnerable. -/
theorem calculate_score_penalty_spec_witness :
    calculate_score ⟨4, BidSuit.spades, false, false, Seat.east⟩ 8 Vulnerability.both =
      -penalty_total_spec ⟨4, BidSuit.spades, false, false, Seat.east⟩ 2 true := by
  have h := calculate_score_penalty_spec.1 ⟨4, BidSuit.spades, false, false, Seat.east⟩ 8
    Vulnerability.both (by decide)
  simpa using h

theorem rank_step_cases (p q : PlayedCard) : rank_step p q = p ∨ rank_step p q = q := by
  unfold rank_step
  split_ifs <;> simp

theorem foldl_rank_step_mem : ∀ (ps : List PlayedCard) (p : PlayedCard),
    ps.foldl rank_step p ∈ p :: ps := by
  intro ps
  induction ps with
  | nil => simp
  | cons q qs ih =>
    intro p
    simp only [List.foldl_cons]
    have h := ih (rank_step p q)
    rcases List.mem_cons.1 h with h1 | h1
    · rw [h1]
      rcases rank_step_cases p q with h2 | h2 <;> simp [h2]
    · simp [List.mem_cons, h1]

theorem rank_step_le_left (p q : PlayedCard) :
    rank_index p.card.rank ≤ rank_index (rank_step p q).card.rank := by
  unfold rank_step
  split_ifs with h
  · exact h
  · exact le_refl _

theorem rank_step_le_right (p q : PlayedCard) :
    rank_index q.card.rank ≤ rank_index (rank_step p q).card.rank := by
  unfold rank_step
  split_ifs with h
  · exact le_refl _
  · omega

theorem foldl_rank_step_ge_init : ∀ (ps : List PlayedCard) (p : PlayedCard),
    rank_index p.card.rank ≤ rank_index (ps.foldl rank_step p).card.rank := by
  intro ps
  induction ps with
  | nil => intro p; exact le_refl _
  | cons q qs ih =>
    intro p
    simp only [List.foldl_cons]
    exact le_trans (rank_step_le_left p q) (ih (rank_step p q))

theorem foldl_rank_step_ge_mem : ∀ (ps : List PlayedCard) (p q : PlayedCard), q ∈ ps →
    rank_index q.card.rank ≤ rank_index (ps.foldl rank_step p).card.rank := by
  intro ps
  induction ps with
  | nil => intro p q hq; cases hq
  | cons r rs ih =>
    intro p q hq
    simp only [List.foldl_cons]
    rcases List.mem_cons.1 hq with h1 | h1
    · subst h1
      exact le_trans (rank_step_le_right p q) (foldl_rank_step_ge_init rs (rank_step p q))
    · exact ih (rank_step p r) q h1

theorem max_by_rank_spec (l : List PlayedCard) (m : PlayedCard)
    (h : max_by_rank l = some m) :
    m ∈ l ∧ ∀ q ∈ l, rank_index q.card.rank ≤ rank_index m.card.rank := by
  cases l with
  | nil => simp [max_by_rank] at h
  | cons p ps =>
    simp only [max_by_rank, Option.some.injEq] at h
    subst h
    refine ⟨foldl_rank_step_mem ps p, ?_⟩
    intro q hq
    rcases List.mem_cons.1 hq with h1 | h1
    · subst h1
      exact foldl_rank_step_ge_init ps q
    · exact foldl_rank_step_ge_mem ps p q h1

theorem max_by_rank_isSome (l : List PlayedCard) (h : l ≠ []) :
    ∃ m, max_by_rank l = some m := by
  cases l with
  | nil => exact absurd rfl h
  | cons p ps => exact ⟨_, rfl⟩

/-- The led-suit or trump-suit maximum: filtering a play list by a suit that
some play has, max_by_rank returns a play of that suit beating every other
play of that suit. -/
theorem filter_max_spec (plays : List PlayedCard) (s : Suit)
    (hne : ∃ p ∈ plays, p.card.suit = s) :
    ∃ m, max_by_rank (plays.filter (fun p => p.card.suit == s)) = some m ∧
      m ∈ plays ∧ m.card.suit = s ∧
      ∀ q ∈ plays, q.card.suit = s → rank_index q.card.rank ≤ rank_index m.card.rank := by
  obtain ⟨p, hp, hs⟩ := hne
  have hmem : p ∈ plays.filter (fun p => p.card.suit == s) :=
    List.mem_filter.2 ⟨hp, by simp [hs]⟩
  have hne2 : plays.filter (fun p => p.card.suit == s) ≠ [] := by
    intro h
    rw [h] at hmem
    cases hmem
  obtain ⟨m, hm⟩ := max_by_rank_isSome _ hne2
  obtain ⟨hmm, hmax⟩ := max_by_rank_spec _ _ hm
  obtain ⟨hmp, hms⟩ := List.mem_filter.1 hmm
  refine ⟨m, hm, hmp, by simpa using hms, ?_⟩
  intro q hq hqs
  exact hmax q (List.mem_filter.2 ⟨hq, by simp [hqs]⟩)

/-- The spec's no-trump trick example: Spades 10, J, A, K by N, E, S, W. -/
def example_trick : Trick :=
  ⟨[⟨⟨Suit.spades, Rank.ten⟩, Seat.north⟩, ⟨⟨Suit.spades, Rank.jack⟩, Seat.east⟩,
    ⟨⟨Suit.spades, Rank.ace⟩, Seat.south⟩, ⟨⟨Suit.spades, Rank.king⟩, Seat.west⟩],
   none, none⟩

/-- A trick with a designated trump suit where a trump was played. -/
def example_trick_trump : Trick :=
  ⟨[⟨⟨Suit.spades, Rank.ace⟩, Seat.north⟩, ⟨⟨Suit.hearts, Rank.two⟩, Seat.east⟩,
    ⟨⟨Suit.spades, Rank.king⟩, Seat.south⟩, ⟨⟨Suit.spades, Rank.queen⟩, Seat.west⟩],
   some Suit.hearts, none⟩

/-- C4: the claim's theorem.
get_trick_winner fails with IncompleteTrick unless exactly four plays are
present; with four plays, when a trump suit is designated and some played
card is a trump, the seat of a highest-ranked trump play wins; otherwise the
seat of a highest-ranked play following the suit of the first (lead) play
wins.  The spec's literal example (Spades 10,J,A,K by N,E,S,W, no trump)
resolves to South. -/
theorem get_trick_winner_spec :
    (∀ t : Trick,
      (t.plays.length ≠ 4 → get_trick_winner t = .error .IncompleteTrick) ∧
      (t.plays.length = 4 →
        (∀ trump, t.trump_suit = some trump → (∃ p ∈ t.plays, p.card.suit = trump) →
          ∃ p ∈ t.plays, p.card.suit = trump ∧
            (∀ q ∈ t.plays, q.card.suit = trump →
              rank_index q.card.rank ≤ rank_index p.card.rank) ∧
            get_trick_winner t = .ok p.seat) ∧
        ((∀ trump, t.trump_suit = some trump → ∀ p ∈ t.plays, p.card.suit ≠ trump) →
          ∃ p ∈ t.plays, p.card.suit = (t.plays.headD default_play).card.suit ∧
            (∀ q ∈ t.plays, q.card.suit = (t.plays.headD default_play).card.suit →
              rank_index q.card.rank ≤ rank_index p.card.rank) ∧
            get_trick_winner t = .ok p.seat))) ∧
    get_trick_winner example_trick = .ok Seat.south := by
  constructor
  · intro t
    refine ⟨fun hne => ?_, fun h4 => ⟨fun trump htr hex => ?_, fun hno => ?_⟩⟩
    · unfold get_trick_winner
      rw [if_pos hne]
    · obtain ⟨m, hm, hmp, hms, hmax⟩ := filter_max_spec t.plays trump hex
      refine ⟨m, hmp, hms, hmax, ?_⟩
      unfold get_trick_winner
      rw [if_neg (by omega)]
      have hcond : (t.plays.filter (fun p => p.card.suit == trump)).isEmpty = false := by
        rcases hex with ⟨p, hp, hps⟩
        have hmem2 : p ∈ t.plays.filter (fun p => p.card.suit == trump) :=
          List.mem_filter.2 ⟨hp, by simp [hps]⟩
        cases hE : (t.plays.filter (fun p => p.card.suit == trump)).isEmpty
        · rfl
        · rw [List.isEmpty_iff] at hE
          rw [hE] at hmem2
          cases hmem2
      simp only [htr, hcond, Bool.not_false, if_true, hm]
    · have hlead : ∃ p ∈ t.plays, p.card.suit = (t.plays.headD default_play).card.suit := by
        cases hp : t.plays with
        | nil => rw [hp] at h4; cases h4
        | cons p0 rest => exact ⟨p0, List.mem_cons_self p0 rest, rfl⟩
      obtain ⟨m, hm, hmp, hms, hmax⟩ := filter_max_spec t.plays
        ((t.plays.headD default_play).card.suit) hlead
      refine ⟨m, hmp, hms, hmax, ?_⟩
      unfold get_trick_winner
      rw [if_neg (by omega)]
      cases htr : t.trump_suit with
      | none => simp only [hm]
      | some trump =>
        have hfil : t.plays.filter (fun p => p.card.suit == trump) = [] := by
          rw [List.filter_eq_nil_iff]
          intro p hp
          simp [hno trump htr p hp]
        rw [List.headD_eq_head?_getD] at hm
        simp [htr, hfil, hm]
  · rfl

/-- Witness for C4: the incomplete-trick branch at one play, and the
no-trump branch at the spec's four-spade trick. -/
theorem get_trick_winner_spec_witness :
    get_trick_winner ⟨[⟨⟨Suit.spades, Rank.ace⟩, Seat.north⟩], none, none⟩ =
      .error .IncompleteTrick ∧
    ∃ p ∈ example_trick.plays,
      p.card.suit = (example_trick.plays.headD default_play).card.suit ∧
      (∀ q ∈ example_trick.plays,
        q.card.suit = (example_trick.plays.headD default_play).card.suit →
        rank_index q.card.rank ≤ rank_index p.card.rank) ∧
      get_trick_winner example_trick = .ok p.seat :=
  ⟨(get_trick_winner_spec.1 _).1 (by decide),
   ((get_trick_winner_spec.1 example_trick).2 (by decide)).2
     (fun trump h => nomatch h)⟩

/-- C10: the claim's theorem.
With exactly four plays, get_trick_winner always returns a winner, never an
error: the led-suit filter contains the lead play itself and the trump
branch only takes a maximum of a list already checked non-empty, so the
error paths after the length check are unreachable. -/
theorem get_trick_winner_total (t : Trick) (h4 : t.plays.length = 4) :
    ∃ s, get_trick_winner t = .ok s := by
  have hlead : ∃ p ∈ t.plays, p.card.suit = (t.plays.headD default_play).card.suit := by
    cases hp : t.plays with
    | nil => rw [hp] at h4; cases h4
    | cons p0 rest => exact ⟨p0, List.mem_cons_self p0 rest, rfl⟩
  obtain ⟨mf, hmf, _, _, _⟩ := filter_max_spec t.plays
    ((t.plays.headD default_play).card.suit) hlead
  unfold get_trick_winner
  rw [if_neg (by omega)]
  cases htr : t.trump_suit with
  | none => exact ⟨mf.seat, by simp only [hmf]⟩
  | some trump =>
    cases hfil : (t.plays.filter (fun p => p.card.suit == trump)).isEmpty with
    | true =>
      refine ⟨mf.seat, ?_⟩
      rw [List.headD_eq_head?_getD] at hmf
      simp [hfil, hmf]
    | false =>
      have hne : t.plays.filter (fun p => p.card.suit == trump) ≠ [] := by
        intro h
        rw [h] at hfil
        cases hfil
      obtain ⟨m, hm⟩ := max_by_rank_isSome _ hne
      exact ⟨m.seat, by simp only [hfil, Bool.not_false, if_true, hm]⟩

/-- Witness for C10: the trump-trick example resolves to some winner. -/
theorem get_trick_winner_total_witness :
    ∃ s, get_trick_winner example_trick_trump = .ok s :=
  get_trick_winner_total example_trick_trump (by decide)

theorem isBid_iff (c : Call) : c.isBid = true ↔ ∃ lvl st, c = Call.bid lvl st := by
  cases c <;> simp [Call.isBid]

/-- The code's partnership test agrees with the claim wording: x is on the
same side as y exactly when x is y or y's partner. -/
theorem not_same_side_iff (x y : Seat) :
    (!same_side x y) = true ↔ (x ≠ y ∧ x ≠ partner_seat y) := by
  cases x <;> cases y <;> decide

/-- C5: the claim's theorem.
On an incomplete auction, Double is legal iff the most recent non-pass call
exists, is a Bid, and came from the opposing partnership of the caller;
Redouble is legal iff that call exists, is a Double, and came from the
opposing partnership; with no non-pass call neither is legal. -/
theorem double_redouble_legality (a : Auction) (seat : Seat)
    (hc : a.is_complete = false) :
    (is_legal_call a Call.double seat = true ↔
      ∃ e, last_non_pass a = some e ∧ (∃ lvl st, e.call = Call.bid lvl st) ∧
        e.seat ≠ seat ∧ e.seat ≠ partner_seat seat) ∧
    (is_legal_call a Call.redouble seat = true ↔
      ∃ e, last_non_pass a = some e ∧ e.call = Call.double ∧
        e.seat ≠ seat ∧ e.seat ≠ partner_seat seat) ∧
    (last_non_pass a = none →
      is_legal_call a Call.double seat = false ∧
      is_legal_call a Call.redouble seat = false) := by
  simp only [is_legal_call, hc, if_false, Bool.false_eq_true]
  cases hnp : last_non_pass a with
  | none => simp
  | some e =>
    refine ⟨?_, ?_, fun h => by cases h⟩
    · simp only [Bool.and_eq_true, isBid_iff, not_same_side_iff, Option.some.injEq]
      constructor
      · rintro ⟨⟨lvl, st, hcall⟩, hside⟩
        exact ⟨e, rfl, ⟨lvl, st, hcall⟩, hside⟩
      · rintro ⟨e2, he2, hbid, hside⟩
        subst he2
        exact ⟨hbid, hside⟩
    · simp only [Bool.and_eq_true, beq_iff_eq, not_same_side_iff, Option.some.injEq]
      constructor
      · rintro ⟨hcall, hside⟩
        exact ⟨e, rfl, hcall, hside⟩
      · rintro ⟨e2, he2, hcall, hside⟩
        subst he2
        exact ⟨hcall, hside⟩

/-- Witness for C5: after North's 1♠ opening, East may double. -/
theorem double_redouble_legality_witness :
    is_legal_call auction_one_bid Call.double Seat.east = true :=
  (double_redouble_legality auction_one_bid Seat.east rfl).1.mpr
    ⟨⟨Seat.north, Call.bid 1 BidSuit.spades⟩, by decide,
     ⟨1, BidSuit.spades, rfl⟩, by decide, by decide⟩

theorem same_side_eq (x y : Seat) :
    same_side x y = (x == y || x == partner_seat y) := by
  cases x <;> cases y <;> decide

/-- The claim wording of "a bid naming the final strain made by the
declaring partnership": the entry's call is a bid of that strain and its
seat is the declaring side or that side's partner. -/
def declarer_pred (st : BidSuit) (side : Seat) (e : AuctionEntry) : Bool :=
  (match e.call with
   | .bid _ s2 => s2 == st
   | _ => false) && (e.seat == side || e.seat == partner_seat side)

/-- C2: the claim's theorem.
With no bid in the auction, get_declarer fails with NoBidsInAuction.  With
at least one bid, the chronologically last bid exists, and get_declarer
returns the seat of the chronologically FIRST entry that bids the final
strain on the final bidder's partnership. -/
theorem get_declarer_spec (a : Auction) :
    ((∀ e ∈ a.entries, e.call.isBid = false) →
      get_declarer a = .error .NoBidsInAuction) ∧
    ((∃ e ∈ a.entries, e.call.isBid = true) →
      ∃ lb lvl st, last_bid a = some lb ∧ lb.call = Call.bid lvl st) ∧
    (∀ lb lvl st, last_bid a = some lb → lb.call = Call.bid lvl st →
      ∃ e, a.entries.find? (declarer_pred st lb.seat) = some e ∧
        get_declarer a = .ok e.seat) := by
  refine ⟨fun hno => ?_, fun hex => ?_, fun lb lvl st hlb hcall => ?_⟩
  · have hnone : last_bid a = none := by
      unfold last_bid
      rw [List.find?_eq_none]
      intro x hx
      simp [hno x (List.mem_reverse.1 hx)]
    unfold get_declarer
    rw [hnone]
  · obtain ⟨e, he, hbid⟩ := hex
    have hsome : (last_bid a).isSome := by
      unfold last_bid
      exact List.find?_isSome.2 ⟨e, List.mem_reverse.2 he, hbid⟩
    obtain ⟨lb, hlb⟩ := Option.isSome_iff_exists.1 hsome
    have hlb2 : List.find? (fun e => e.call.isBid) a.entries.reverse = some lb := hlb
    have hp0 := List.find?_some hlb2
    have hp : lb.call.isBid = true := by simpa using hp0
    obtain ⟨lvl, st, hbid2⟩ := (isBid_iff _).1 hp
    exact ⟨lb, lvl, st, hlb, hbid2⟩
  · have hpred : declarer_pred st lb.seat lb = true := by
      unfold declarer_pred
      rw [hcall]
      simp
    have hmem : lb ∈ a.entries :=
      List.mem_reverse.1 (List.mem_of_find?_eq_some hlb)
    have hsome : (a.entries.find? (declarer_pred st lb.seat)).isSome :=
      List.find?_isSome.2 ⟨lb, hmem, hpred⟩
    obtain ⟨e, hfind⟩ := Option.isSome_iff_exists.1 hsome
    refine ⟨e, hfind, ?_⟩
    unfold get_declarer
    rw [hlb]
    have hfun : (fun e : AuctionEntry =>
        match e.call with
        | .bid _ strain => strain == st && same_side e.seat lb.seat
        | _ => false) = declarer_pred st lb.seat := by
      funext e2
      unfold declarer_pred
      rcases e2 with ⟨s2, c2⟩
      cases c2 <;> simp [same_side_eq]
    simp only [hcall]
    rw [hfun, hfind]

/-- Witness for C2: North opened 1♠, South raised to 2♠ — the declarer is
the first spade bidder on the N-S side. -/
theorem get_declarer_spec_witness :
    ∃ e, auction_raise.entries.find? (declarer_pred BidSuit.spades Seat.south) = some e ∧
      get_declarer auction_raise = .ok e.seat :=
  (get_declarer_spec auction_raise).2.2 ⟨Seat.south, Call.bid 2 BidSuit.spades⟩ 2
    BidSuit.spades (by decide) rfl

theorem isPass_iff (c : Call) : c.isPass = true ↔ c = Call.pass := by
  cases c <;> simp [Call.isPass]

theorem not_isPass_iff (c : Call) : (!c.isPass) = true ↔ c ≠ Call.pass := by
  cases c <;> simp [Call.isPass]

theorem is_auction_complete_eq (a : Auction) :
    is_auction_complete a =
      (if a.entries.length < 4 then false
       else if !((a.entries.getD (a.entries.length - 1) default_entry).call.isPass &&
                 (a.entries.getD (a.entries.length - 2) default_entry).call.isPass &&
                 (a.entries.getD (a.entries.length - 3) default_entry).call.isPass) then false
       else if a.entries.length == 4 &&
               (a.entries.getD (a.entries.length - 4) default_entry).call.isPass then true
       else (a.entries.take (a.entries.length - 3)).any (fun e => !e.call.isPass)) := rfl

/-- C1: the claim's theorem.
is_auction_complete is true exactly when the auction has at least 4 entries,
its last 3 entries are passes, and either all 4 entries are passes (the
passout) or some earlier entry is a non-pass call; in particular two bids
followed by two passes is not complete. -/
theorem is_auction_complete_spec :
    (∀ a : Auction,
      is_auction_complete a = true ↔
        (4 ≤ a.entries.length ∧
         (∀ i (hi : i < a.entries.length), a.entries.length - 3 ≤ i →
            a.entries[i].call = Call.pass) ∧
         ((a.entries.length = 4 ∧ ∀ e ∈ a.entries, e.call = Call.pass) ∨
          (∃ e ∈ a.entries.take (a.entries.length - 3), e.call ≠ Call.pass)))) ∧
    is_auction_complete auction_two_bids_two_passes = false := by
  constructor
  · intro a
    by_cases hlen : a.entries.length < 4
    · rw [is_auction_complete_eq, if_pos hlen]
      simp only [Bool.false_eq_true, false_iff]
      rintro ⟨h4, -, -⟩
      omega
    · have h4 : 4 ≤ a.entries.length := by omega
      have hb1 : a.entries.length - 1 < a.entries.length := by omega
      have hb2 : a.entries.length - 2 < a.entries.length := by omega
      have hb3 : a.entries.length - 3 < a.entries.length := by omega
      have hb0 : a.entries.length - 4 < a.entries.length := by omega
      have e1 := List.getD_eq_getElem a.entries default_entry hb1
      have e2 := List.getD_eq_getElem a.entries default_entry hb2
      have e3 := List.getD_eq_getElem a.entries default_entry hb3
      have e0 := List.getD_eq_getElem a.entries default_entry hb0
      rw [is_auction_complete_eq, if_neg hlen]
      by_cases hp3 : ((a.entries.getD (a.entries.length - 1) default_entry).call.isPass &&
          (a.entries.getD (a.entries.length - 2) default_entry).call.isPass &&
          (a.entries.getD (a.entries.length - 3) default_entry).call.isPass) = true
      · rw [if_neg (by rw [hp3]; simp)]
        simp only [Bool.and_eq_true] at hp3
        obtain ⟨⟨hA, hB⟩, hC⟩ := hp3
        rw [e1] at hA
        rw [e2] at hB
        rw [e3] at hC
        have hpass : ∀ i (hi : i < a.entries.length), a.entries.length - 3 ≤ i →
            a.entries[i].call = Call.pass := by
          intro i hi hge
          have hcases : i = a.entries.length - 3 ∨ i = a.entries.length - 2 ∨
              i = a.entries.length - 1 := by omega
          rcases hcases with h | h | h <;> subst h
          · exact (isPass_iff _).1 hC
          · exact (isPass_iff _).1 hB
          · exact (isPass_iff _).1 hA
        by_cases hp4 : (a.entries.length == 4 &&
            (a.entries.getD (a.entries.length - 4) default_entry).call.isPass) = true
        · rw [if_pos hp4]
          simp only [Bool.and_eq_true, beq_iff_eq] at hp4
          obtain ⟨hn4, h0⟩ := hp4
          refine ⟨fun _ => ⟨h4, hpass, Or.inl ⟨hn4, ?_⟩⟩, fun _ => rfl⟩
          intro e he
          obtain ⟨j, hj, hje⟩ := List.mem_iff_getElem.1 he
          rw [← hje]
          rcases Nat.eq_zero_or_pos j with hj0 | hjpos
          · subst hj0
            have hz : a.entries.length - 4 = 0 := by omega
            rw [hz] at h0
            have e00 := List.getD_eq_getElem a.entries default_entry hj
            rw [e00] at h0
            exact (isPass_iff _).1 h0
          · exact hpass j hj (by omega)
        · rw [if_neg hp4]
          rw [List.any_eq_true]
          constructor
          · rintro ⟨e, he, hne⟩
            exact ⟨h4, hpass, Or.inr ⟨e, he, (not_isPass_iff _).1 hne⟩⟩
          · rintro ⟨-, -, hdis⟩
            rcases hdis with ⟨hn4, hall⟩ | ⟨e, he, hne⟩
            · exfalso
              apply hp4
              simp only [Bool.and_eq_true, beq_iff_eq]
              refine ⟨hn4, ?_⟩
              rw [e0]
              rw [isPass_iff]
              exact hall _ (a.entries.getElem_mem hb0)
            · exact ⟨e, he, (not_isPass_iff _).2 hne⟩
      · have hx : ((a.entries.getD (a.entries.length - 1) default_entry).call.isPass &&
            (a.entries.getD (a.entries.length - 2) default_entry).call.isPass &&
            (a.entries.getD (a.entries.length - 3) default_entry).call.isPass) = false := by
          revert hp3
          cases ((a.entries.getD (a.entries.length - 1) default_entry).call.isPass &&
            (a.entries.getD (a.entries.length - 2) default_entry).call.isPass &&
            (a.entries.getD (a.entries.length - 3) default_entry).call.isPass) <;> simp
        rw [if_pos (show (!((a.entries.getD (a.entries.length - 1) default_entry).call.isPass &&
            (a.entries.getD (a.entries.length - 2) default_entry).call.isPass &&
            (a.entries.getD (a.entries.length - 3) default_entry).call.isPass)) = true by
          rw [hx]; rfl)]
        simp only [Bool.false_eq_true, false_iff]
        rintro ⟨-, hpass, -⟩
        have hone : (a.entries.getD (a.entries.length - 1) default_entry).call.isPass = false ∨
            (a.entries.getD (a.entries.length - 2) default_entry).call.isPass = false ∨
            (a.entries.getD (a.entries.length - 3) default_entry).call.isPass = false := by
          revert hx
          cases (a.entries.getD (a.entries.length - 1) default_entry).call.isPass <;>
            cases (a.entries.getD (a.entries.length - 2) default_entry).call.isPass <;>
            cases (a.entries.getD (a.entries.length - 3) default_entry).call.isPass <;> simp
        rcases hone with h | h | h
        · rw [e1, hpass _ hb1 (by omega)] at h
          simp [Call.isPass] at h
        · rw [e2, hpass _ hb2 (by omega)] at h
          simp [Call.isPass] at h
        · rw [e3, hpass _ hb3 (by omega)] at h
          simp [Call.isPass] at h
  · rfl

/-- Witness for C1: the passout auction is complete, through the
characterization. -/
theorem is_auction_complete_spec_witness :
    is_auction_complete ⟨[⟨Seat.north, Call.pass⟩, ⟨Seat.east, Call.pass⟩,
      ⟨Seat.south, Call.pass⟩, ⟨Seat.west, Call.pass⟩], false⟩ = true :=
  (is_auction_complete_spec.1 _).mpr ⟨by decide, by decide, Or.inl ⟨rfl, by decide⟩⟩

/-- Moving position m of a list to the front while writing x into position m
permutes x onto the front. -/
theorem cons_get_set_perm {α : Type} : ∀ (t : List α) (m : Nat) (x : α)
    (hm : m < t.length), (t[m] :: t.set m x).Perm (x :: t)
  | y :: s, 0, x, _ => by
    simp only [List.getElem_cons_zero, List.set_cons_zero]
    exact List.Perm.swap x y s
  | y :: s, m + 1, x, hm => by
    have hms : m < s.length := by simpa using hm
    simp only [List.getElem_cons_succ, List.set_cons_succ]
    exact (List.Perm.swap y (s[m]) (s.set m x)).trans
      (((cons_get_set_perm s m x hms).cons y).trans (List.Perm.swap x y s))

/-- Writing l[j] into position i and l[i] into position j permutes l. -/
theorem set_set_swap_perm {α : Type} : ∀ (l : List α) (i j : Nat)
    (hi : i < l.length) (hj : j < l.length),
    ((l.set i (l[j])).set j (l[i])).Perm l
  | [], _, _, hi, _ => by simp at hi
  | x :: t, 0, 0, _, _ => by simp
  | x :: t, 0, m + 1, _, hj => by
    have hms : m < t.length := by simpa using hj
    simp only [List.getElem_cons_succ, List.getElem_cons_zero,
      List.set_cons_zero, List.set_cons_succ]
    exact cons_get_set_perm t m x hms
  | x :: t, n + 1, 0, hi, _ => by
    have hns : n < t.length := by simpa using hi
    simp only [List.getElem_cons_succ, List.getElem_cons_zero,
      List.set_cons_zero, List.set_cons_succ]
    exact cons_get_set_perm t n x hns
  | x :: t, n + 1, m + 1, hi, hj => by
    have hns : n < t.length := by simpa using hi
    have hms : m < t.length := by simpa using hj
    simp only [List.getElem_cons_succ, List.set_cons_succ]
    exact (set_set_swap_perm t n m hns hms).cons x

/-- Vec::swap permutes (out-of-range indices leave the list untouched, a
case never reached inside the shuffle). -/
theorem list_swap_perm (l : List Card) (i j : Nat) : (list_swap l i j).Perm l := by
  unfold list_swap
  cases hi : l.get? i with
  | none => exact List.Perm.refl l
  | some a =>
    cases hj : l.get? j with
    | none => exact List.Perm.refl l
    | some b =>
      have hii : i < l.length := by
        by_contra hcon
        rw [List.get?_eq_none.2 (by omega)] at hi
        cases hi
      have hjj : j < l.length := by
        by_contra hcon
        rw [List.get?_eq_none.2 (by omega)] at hj
        cases hj
      rw [List.get?_eq_get hii] at hi
      rw [List.get?_eq_get hjj] at hj
      have ha : a = l[i] := by
        injection hi with h2
        exact h2.symm
      have hb : b = l[j] := by
        injection hj with h2
        exact h2.symm
      subst ha
      subst hb
      exact set_set_swap_perm l i j hii hjj

theorem fisher_yates_fold_perm : ∀ (idxs : List Nat) (st : List Card × RngM),
    ((idxs.foldl (fun st i =>
      let draw := st.2.gen_range i
      (list_swap st.1 i draw.1, draw.2)) st).1).Perm st.1 := by
  intro idxs
  induction idxs with
  | nil => intro st; exact List.Perm.refl _
  | cons i is ih =>
    intro st
    rw [List.foldl_cons]
    exact (ih _).trans (list_swap_perm _ _ _)

/-- The Fisher-Yates shuffle permutes its input. -/
theorem fisher_yates_shuffle_perm (cards : List Card) (rng : RngM) :
    ((fisher_yates_shuffle cards rng).1).Perm cards := by
  unfold fisher_yates_shuffle
  exact fisher_yates_fold_perm _ _

/-- Every deal the rejection loop accepts was cut from a shuffle of the
deck. -/
theorem generate_loop_ok (constraints : DealConstraints) (dealer : Seat)
    (vulnerability : Vulnerability) (deck : List Card) (max_attempts : Nat) :
    ∀ (remaining attempt : Nat) (rng : RngM) (res : DealGeneratorResult),
      generate_loop constraints dealer vulnerability deck max_attempts
        remaining attempt rng = .ok res →
      ∃ shuffled : List Card, shuffled.Perm deck ∧
        res.deal = deal_from_shuffled shuffled dealer vulnerability := by
  intro remaining
  induction remaining with
  | zero =>
    intro attempt rng res h
    simp [generate_loop] at h
  | succ rem ih =>
    intro attempt rng res h
    rw [generate_loop] at h
    by_cases hc : check_constraints
        (deal_from_shuffled (fisher_yates_shuffle deck rng).1 dealer vulnerability)
        constraints = true
    · rw [if_pos hc] at h
      refine ⟨(fisher_yates_shuffle deck rng).1, fisher_yates_shuffle_perm deck rng, ?_⟩
      injection h with h2
      rw [← h2]
    · rw [if_neg hc] at h
      exact ih _ _ _ h

theorem create_deck_length : create_deck.length = 52 := by decide

theorem create_deck_nodup : create_deck.Nodup := by decide

/-- The four 13-card cuts of a 52-card list concatenate back to the list. -/
theorem deal_hands_concat (cards : List Card) (dealer : Seat)
    (vulnerability : Vulnerability) (h52 : cards.length = 52) :
    ((deal_from_shuffled cards dealer vulnerability).hands Seat.north).cards ++
    ((deal_from_shuffled cards dealer vulnerability).hands Seat.east).cards ++
    ((deal_from_shuffled cards dealer vulnerability).hands Seat.south).cards ++
    ((deal_from_shuffled cards dealer vulnerability).hands Seat.west).cards = cards := by
  simp only [deal_from_shuffled]
  have e39 : (cards.drop 39).take 13 = cards.drop 39 :=
    List.take_of_length_le (by rw [List.length_drop, h52])
  have d2639 : (cards.drop 26).drop 13 = cards.drop 39 := by
    rw [List.drop_drop]
  have d1326 : (cards.drop 13).drop 13 = cards.drop 26 := by
    rw [List.drop_drop]
  have h2639 : (cards.drop 26).take 13 ++ cards.drop 39 = cards.drop 26 := by
    rw [← d2639, List.take_append_drop]
  have h1326 : (cards.drop 13).take 13 ++ cards.drop 26 = cards.drop 13 := by
    rw [← d1326, List.take_append_drop]
  rw [e39, List.append_assoc, h2639, List.append_assoc, h1326, List.take_append_drop]

theorem calculate_hcp_append (l1 l2 : List Card) :
    calculate_hcp ⟨l1 ++ l2⟩ = calculate_hcp ⟨l1⟩ + calculate_hcp ⟨l2⟩ := by
  simp [calculate_hcp]

theorem deck_hcp_total : calculate_hcp ⟨create_deck⟩ = 40 := by decide

/-- C8: the claim's theorem.
Whenever generate_deal succeeds, each of the four hands holds 13 cards, the
concatenation of the four hands is a permutation of the 52-card deck (hence
no duplicate, no omission, and no duplicates within the union), and the four
hands' HCP totals sum to 40. -/
theorem generate_deal_deck_invariants (constraints : DealConstraints) (entropy : RngM)
    (res : DealGeneratorResult) (h : generate_deal constraints entropy = .ok res) :
    (∀ s : Seat, (res.deal.hands s).cards.length = 13) ∧
    ((res.deal.hands Seat.north).cards ++ (res.deal.hands Seat.east).cards ++
     (res.deal.hands Seat.south).cards ++ (res.deal.hands Seat.west).cards).Perm
      create_deck ∧
    ((res.deal.hands Seat.north).cards ++ (res.deal.hands Seat.east).cards ++
     (res.deal.hands Seat.south).cards ++ (res.deal.hands Seat.west).cards).Nodup ∧
    calculate_hcp (res.deal.hands Seat.north) + calculate_hcp (res.deal.hands Seat.east) +
      calculate_hcp (res.deal.hands Seat.south) +
      calculate_hcp (res.deal.hands Seat.west) = 40 := by
  rw [generate_deal] at h
  obtain ⟨shuffled, hperm, hdeal⟩ := generate_loop_ok _ _ _ _ _ _ _ _ _ h
  have h52 : shuffled.length = 52 := by
    rw [hperm.length_eq, create_deck_length]
  have hconcat := deal_hands_concat shuffled (constraints.dealer.getD Seat.north)
    (constraints.vulnerability.getD Vulnerability.vNone) h52
  rw [hdeal]
  refine ⟨?_, ?_, ?_, ?_⟩
  · intro s
    cases s <;>
      simp [deal_from_shuffled, List.length_take, List.length_drop, h52]
  · rw [hconcat]
    exact hperm
  · rw [hconcat]
    exact hperm.nodup_iff.2 create_deck_nodup
  · have hsum := congrArg (fun l => calculate_hcp ⟨l⟩) hconcat
    dsimp only at hsum
    rw [calculate_hcp_append, calculate_hcp_append, calculate_hcp_append] at hsum
    have h40 : calculate_hcp ⟨shuffled⟩ = 40 := by
      unfold calculate_hcp
      rw [(hperm.map (fun c => hcp_value c.rank)).sum_eq]
      exact deck_hcp_total
    exact hsum.trans h40

/-- Witness data for C8: the first (unconstrained) shuffle is accepted. -/
def witness_constraints : DealConstraints := ⟨[], none, none, some 1, some 0⟩

def witness_result : DealGeneratorResult :=
  ⟨deal_from_shuffled (fisher_yates_shuffle create_deck (chacha8_from_seed 0)).1
    Seat.north Vulnerability.vNone, 1, 0⟩

/-- Witness for C8 at a concrete seeded, unconstrained generation. -/
theorem generate_deal_deck_invariants_witness :
    (∀ s : Seat, (witness_result.deal.hands s).cards.length = 13) ∧
    ((witness_result.deal.hands Seat.north).cards ++
     (witness_result.deal.hands Seat.east).cards ++
     (witness_result.deal.hands Seat.south).cards ++
     (witness_result.deal.hands Seat.west).cards).Perm create_deck ∧
    ((witness_result.deal.hands Seat.north).cards ++
     (witness_result.deal.hands Seat.east).cards ++
     (witness_result.deal.hands Seat.south).cards ++
     (witness_result.deal.hands Seat.west).cards).Nodup ∧
    calculate_hcp (witness_result.deal.hands Seat.north) +
      calculate_hcp (witness_result.deal.hands Seat.east) +
      calculate_hcp (witness_result.deal.hands Seat.south) +
      calculate_hcp (witness_result.deal.hands Seat.west) = 40 :=
  generate_deal_deck_invariants witness_constraints entropy_a witness_result rfl

